import Mathlib

/-!
Shallow embedding of the `ocean_buyer` skill behaviours
(`packages/eightballer/skills/ocean_buyer/behaviours.py`).

The embedding keeps the Python names where Lean allows it:

* `GenericTransactionBehaviour` state is `TxState`; its methods `act`,
  `_start_processing`, `_timeout_processing`, `finish_processing`,
  `failed_processing` become `act`, `startProcessing`, `timeoutProcessing`,
  `finishProcessing`, `failedProcessing`.
* A `LedgerApiDialogue` is modelled by its `dialogue_label` (the correlation
  token, a `Nat`) together with its `associated_fipa_dialogue` (the
  transaction request, also a `Nat` id).  Fresh dialogue creation by
  `ledger_api_dialogues.create` is modelled by a fresh-label counter carried
  in the state.
* Python floats (`processing_time`, `tick_interval`, `max_processing`) are
  modelled as rationals: the values exercised by the code (2.0, 4.0, 120)
  are exact, and only order comparison and addition are used.
* `raise ValueError` in `finish_processing` becomes the `FinishResult.fatal`
  constructor.
-/

namespace OceanBuyer

/-- A `LedgerApiDialogue`: its `dialogue_label` (correlation token) and the
`associated_fipa_dialogue` (the transaction request it carries). -/
structure LedgerDialogue where
  label : Nat
  fipa : Nat
deriving DecidableEq, Repr

/-- The mutable state of `GenericTransactionBehaviour`, plus the two
configuration fields set in `__init__` and a fresh-label counter modelling
`ledger_api_dialogues.create`. -/
structure TxState where
  max_processing : ℚ
  tick_interval : ℚ
  processing_time : ℚ
  waiting : List Nat
  processing : Option LedgerDialogue
  timedout : Finset Nat
  next_label : Nat
deriving DecidableEq

/-- `GenericTransactionBehaviour._start_processing`: pop the head of
`waiting`, create a fresh ledger-api dialogue for it, reset
`processing_time`, store the dialogue in `processing` and emit the
ledger-api request.  (The code only calls it with `waiting` non-empty; on
an empty list `pop(0)` would raise, modelled here as a no-op branch that
`act` never reaches.) -/
def startProcessing (s : TxState) : TxState × List LedgerDialogue :=
  match s.waiting with
  | [] => (s, [])
  | r :: rest =>
      let d : LedgerDialogue := ⟨s.next_label, r⟩
      ({ s with
          waiting := rest
          processing_time := 0
          processing := some d
          next_label := s.next_label + 1 }, [d])

/-- `GenericTransactionBehaviour._timeout_processing`: move the current
dialogue's label into `timedout`, re-enqueue its fipa dialogue at the tail
of `waiting`, clear the slot. -/
def timeoutProcessing (s : TxState) : TxState :=
  match s.processing with
  | none => s
  | some d =>
      { s with
          timedout := insert d.label s.timedout
          waiting := s.waiting ++ [d.fipa]
          processing_time := 0
          processing := none }

/-- The tail of `GenericTransactionBehaviour.act` after the
`self.processing` block: return if `waiting` is empty, else
`_start_processing`. -/
def dispatch (s : TxState) : TxState × List LedgerDialogue :=
  if s.waiting.isEmpty then (s, []) else startProcessing s

/-- `GenericTransactionBehaviour.act`, returning the new state and the
ledger-api requests put into the outbox during the tick. -/
def act (s : TxState) : TxState × List LedgerDialogue :=
  match s.processing with
  | some _ =>
      if s.processing_time ≤ s.max_processing then
        ({ s with processing_time := s.processing_time + s.tick_interval }, [])
      else
        dispatch (timeoutProcessing s)
  | none => dispatch s

/-- Result of `finish_processing`: either the updated state, or the
`ValueError` raised on a non-matching dialogue. -/
inductive FinishResult where
  | ok (s : TxState)
  | fatal
deriving DecidableEq

/-- `GenericTransactionBehaviour.finish_processing`. -/
def finishProcessing (s : TxState) (d : LedgerDialogue) : FinishResult :=
  if s.processing = some d then
    .ok { s with processing_time := 0, processing := none }
  else if d.label ∉ s.timedout then
    .fatal
  else
    .ok { s with timedout := s.timedout.erase d.label }

/-- `GenericTransactionBehaviour.failed_processing`: run
`finish_processing`, then append the associated fipa dialogue to the tail
of `waiting` (if `finish_processing` raised, the exception propagates and
the append does not happen). -/
def failedProcessing (s : TxState) (d : LedgerDialogue) : FinishResult :=
  match finishProcessing s d with
  | .ok s' => .ok { s' with waiting := s'.waiting ++ [d.fipa] }
  | .fatal => .fatal

/-- An event observable by the transaction behaviour: a tick of `act`, an
external enqueue into `waiting` (done by the negotiation handlers), a
success completion (`finish_processing`) or a failure completion
(`failed_processing`) for a ledger-api dialogue. -/
inductive Ev where
  | tick
  | enqueue (r : Nat)
  | finish (d : LedgerDialogue)
  | fail (d : LedgerDialogue)
deriving DecidableEq, Repr

/-- One event step.  Returns `none` when `finish_processing` raises its
`ValueError`; otherwise the new state and the fipa ids of the requests
dispatched to the ledger during the step, in dispatch order. -/
def stepEv (s : TxState) : Ev → Option (TxState × List Nat)
  | .tick => some ((act s).1, (act s).2.map LedgerDialogue.fipa)
  | .enqueue r => some ({ s with waiting := s.waiting ++ [r] }, [])
  | .finish d =>
      match finishProcessing s d with
      | .ok s' => some (s', [])
      | .fatal => none
  | .fail d =>
      match failedProcessing s d with
      | .ok s' => some (s', [])
      | .fatal => none

/-- Run a sequence of events.  The first component is `none` when a step
raised (remaining events are discarded); the second accumulates the fipa
ids dispatched to the ledger, in dispatch order. -/
def run (s : TxState) : List Ev → Option TxState × List Nat
  | [] => (some s, [])
  | e :: es =>
      match stepEv s e with
      | none => (none, [])
      | some (s', o) =>
          let t := run s' es
          (t.1, o ++ t.2)

/-- Iterated ticks of `act` (the dispatch loop running with no completion
arriving), keeping only the state. -/
def ticks (s : TxState) : Nat → TxState
  | 0 => s
  | n + 1 => (act (ticks s n)).1

/-- `GenericSearchBehaviour.act`.  The code reads
`len(transaction_behaviour.waiting)` and never writes to the transaction
behaviour, so the embedding threads the observed `TxState` through
unchanged.  Returns the transaction state, the number of OEF search
queries put into the outbox this tick, and whether the
"Skipping search!" message was logged. -/
def searchAct (is_searching : Bool) (tx : TxState) : TxState × Nat × Bool :=
  if is_searching = false then (tx, 0, false)
  else if 0 < tx.waiting.length then (tx, 0, true)
  else (tx, 1, false)

/-- The strategy flags read and written by `OceanC2DBehaviour`.
`purchased_data` models the optional kwargs dict by an opaque id. -/
structure C2DStrategy where
  is_in_flight : Bool
  is_c2d_active : Bool
  purchased_data : Option Nat
  has_completed_c2d_job : Bool
  is_processing : Bool
deriving DecidableEq, Repr

/-- `OceanC2DBehaviour.act`, with `__create_envelope` inlined: the
envelope is put into the outbox (counted) and `is_in_flight` is set to
`True`.  Returns the updated strategy and the number of envelopes
emitted. -/
def c2dAct (st : C2DStrategy) : C2DStrategy × Nat :=
  if st.is_in_flight || !st.is_c2d_active then (st, 0)
  else
    let p :=
      if st.purchased_data.isSome && !st.has_completed_c2d_job then
        ({ st with is_in_flight := true }, 1)
      else (st, 0)
    if p.1.has_completed_c2d_job then
      ({ p.1 with is_c2d_active := false, is_processing := false }, p.2)
    else p

/-- One dispatch-then-failure round: a tick of `act` followed by
`failed_processing` for the dialogue that tick left in flight (if any).
This is the loop a permanently-failing request goes through. -/
def failCycle (s : TxState) : TxState :=
  let s1 := (act s).1
  match s1.processing with
  | some d =>
      match failedProcessing s1 d with
      | .ok s2 => s2
      | .fatal => s1
  | none => s1

/-! ### Concrete states used for scenarios and witnesses -/

/-- The timeout scenario of the spec: tick interval 2.0, max-processing
4.0, R1 (fipa id 1) enqueued, loop idle. -/
def scenarioStart : TxState :=
  { max_processing := 4, tick_interval := 2, processing_time := 0,
    waiting := [1], processing := none, timedout := ∅, next_label := 0 }

/-- A state in which token 3 is in the timed-out set and no dialogue is in
flight: the first late completion for token 3 resolves against the set. -/
def dupS1 : TxState :=
  { max_processing := 120, tick_interval := 2, processing_time := 0,
    waiting := [], processing := none, timedout := {3}, next_label := 4 }

/-- `dupS1` after the first late completion for token 3 has been
resolved: the token has been removed from the timed-out set. -/
def dupS2 : TxState := { dupS1 with timedout := ∅ }

/-- A state with dialogue ⟨7, 8⟩ in flight and token 3 timed out. -/
def lateW : TxState :=
  { max_processing := 120, tick_interval := 2, processing_time := 6,
    waiting := [9], processing := some ⟨7, 8⟩, timedout := {3}, next_label := 8 }

/-- An idle state with one waiting request, used for dispatch witnesses. -/
def idleW : TxState :=
  { max_processing := 120, tick_interval := 2, processing_time := 0,
    waiting := [5], processing := none, timedout := ∅, next_label := 0 }

/-- A state about to time out dialogue ⟨0, 1⟩ with requests 2 and 3
waiting (the FIFO-demotion scenario at the timeout tick). -/
def fifoW : TxState :=
  { max_processing := 4, tick_interval := 2, processing_time := 6,
    waiting := [2, 3], processing := some ⟨0, 1⟩, timedout := ∅, next_label := 1 }

/-- A state about to time out dialogue ⟨0, 1⟩ with a single other request
2 waiting (the timeout-then-failure double-enqueue scenario). -/
def dblW : TxState :=
  { max_processing := 4, tick_interval := 2, processing_time := 6,
    waiting := [2], processing := some ⟨0, 1⟩, timedout := ∅, next_label := 1 }

/-! ### Helper lemmas shared by the claim theorems -/

/-- The success path of `finish_processing` for a token in the timed-out
set: the token is erased and nothing else changes. -/
lemma finish_timedout_eq (s : TxState) (d : LedgerDialogue)
    (hin : d.label ∈ s.timedout) (hp : s.processing ≠ some d) :
    finishProcessing s d = .ok { s with timedout := s.timedout.erase d.label } := by
  unfold finishProcessing
  rw [if_neg hp, if_neg (by simp [hin])]

/-- `finish_processing` raises when the dialogue matches neither the slot
nor the timed-out set. -/
lemma finish_unmatched_eq (s : TxState) (d : LedgerDialogue)
    (hnot : d.label ∉ s.timedout) (hp : s.processing ≠ some d) :
    finishProcessing s d = .fatal := by
  unfold finishProcessing
  rw [if_neg hp, if_pos hnot]

/-- A slot whose label differs from `d.label` cannot equal `some d`. -/
lemma processing_ne_of_label_ne (s : TxState) (d : LedgerDialogue)
    (h : ∀ d' : LedgerDialogue, s.processing = some d' → d'.label ≠ d.label) :
    s.processing ≠ some d := by
  intro hc
  exact h d hc rfl

/-- `finish_processing` never changes `waiting` when it returns normally. -/
lemma finish_ok_waiting (s : TxState) (d : LedgerDialogue) (s' : TxState)
    (h : finishProcessing s d = .ok s') : s'.waiting = s.waiting := by
  unfold finishProcessing at h
  split at h
  · cases h
    rfl
  · split at h
    · cases h
    · cases h
      rfl

/-- A tick on an idle state with exactly one waiting request dispatches
it; a failure completion for that dispatch restores the shape of the
state (one waiting request, empty slot), with a fresh label consumed. -/
lemma failCycle_eq (s : TxState) (r : Nat)
    (hp : s.processing = none) (hw : s.waiting = [r]) :
    failCycle s = { s with
        waiting := [r]
        processing_time := 0
        processing := none
        next_label := s.next_label + 1 } := by
  simp only [failCycle, act, dispatch, startProcessing, failedProcessing,
    finishProcessing, hp, hw, List.isEmpty_cons, Bool.false_eq_true,
    if_false, if_pos rfl]
  simp

/-- A tick on a state whose slot has exceeded its budget: the slot's
token is moved to the timed-out set, its request is re-enqueued at the
tail, and the head of the queue is dispatched with a fresh label, all in
the same tick. -/
lemma act_timeout_dispatch (s : TxState) (d : LedgerDialogue) (y : Nat)
    (rest : List Nat)
    (hp : s.processing = some d)
    (ht : ¬ s.processing_time ≤ s.max_processing)
    (hw : s.waiting = y :: rest) :
    act s = ({ s with
        waiting := rest ++ [d.fipa]
        timedout := insert d.label s.timedout
        processing_time := 0
        processing := some ⟨s.next_label, y⟩
        next_label := s.next_label + 1 }, [⟨s.next_label, y⟩]) := by
  simp [act, timeoutProcessing, dispatch, startProcessing, hp, hw, ht]

/-- `dispatch` on an empty queue is a no-op with no request emitted. -/
lemma dispatch_nil (s : TxState) (hw : s.waiting = []) : dispatch s = (s, []) := by
  simp [dispatch, hw]

/-- `dispatch` on a non-empty queue is `_start_processing`. -/
lemma dispatch_cons (s : TxState) (y : Nat) (t : List Nat) (hw : s.waiting = y :: t) :
    dispatch s = startProcessing s := by
  simp [dispatch, hw]

/-- Explicit form of `_start_processing` on a non-empty queue. -/
lemma startProcessing_cons (s : TxState) (y : Nat) (t : List Nat)
    (hw : s.waiting = y :: t) :
    startProcessing s = ({ s with
        waiting := t
        processing_time := 0
        processing := some ⟨s.next_label, y⟩
        next_label := s.next_label + 1 }, [⟨s.next_label, y⟩]) := by
  simp [startProcessing, hw]

/-- A tick either emits nothing, or goes through `_start_processing` from
an intermediate state whose slot is empty — the pre-tick state itself, or
the pre-tick state just cleared by `_timeout_processing` — and leaves the
emitted dialogue in the slot. -/
lemma act_emits (s : TxState) :
    (act s).2 = [] ∨
    ∃ (s1 : TxState) (y : Nat),
      (s1 = s ∨ s1 = timeoutProcessing s) ∧ s1.processing = none ∧
      act s = startProcessing s1 ∧
      (act s).2 = [⟨s1.next_label, y⟩] ∧
      (act s).1.processing = some ⟨s1.next_label, y⟩ := by
  cases hp : s.processing with
  | none =>
      have ha : act s = dispatch s := by simp [act, hp]
      cases hw : s.waiting with
      | nil => left; rw [ha, dispatch_nil s hw]
      | cons y t =>
          right
          refine ⟨s, y, Or.inl rfl, hp, ?_, ?_, ?_⟩
          · rw [ha, dispatch_cons s y t hw]
          · rw [ha, dispatch_cons s y t hw, startProcessing_cons s y t hw]
          · rw [ha, dispatch_cons s y t hw, startProcessing_cons s y t hw]
  | some d =>
      by_cases htl : s.processing_time ≤ s.max_processing
      · left
        simp [act, hp, htl]
      · have ha : act s = dispatch (timeoutProcessing s) := by simp [act, hp, htl]
        have hw1 : (timeoutProcessing s).waiting = s.waiting ++ [d.fipa] := by
          simp [timeoutProcessing, hp]
        have hp1 : (timeoutProcessing s).processing = none := by
          simp [timeoutProcessing, hp]
        cases hc : (timeoutProcessing s).waiting with
        | nil =>
            rw [hw1] at hc
            exact absurd hc (by simp)
        | cons y t =>
            right
            refine ⟨timeoutProcessing s, y, Or.inr rfl, hp1, ?_, ?_, ?_⟩
            · rw [ha, dispatch_cons _ y t hc]
            · rw [ha, dispatch_cons _ y t hc, startProcessing_cons _ y t hc]
            · rw [ha, dispatch_cons _ y t hc, startProcessing_cons _ y t hc]

/-- Per step, `waiting` either only grows at the tail (no dispatch), or
one element is popped from the head of its tail-extended form and is the
dispatched request.  Requests are never inserted anywhere but the tail and
never removed from anywhere but the head. -/
lemma step_waiting_cases (s : TxState) (e : Ev) (s' : TxState) (o : List Nat)
    (h : stepEv s e = some (s', o)) :
    (o = [] ∧ ∃ t, s'.waiting = s.waiting ++ t) ∨
    (∃ y rest t, o = [y] ∧ s.waiting ++ t = y :: rest ∧ s'.waiting = rest) := by
  cases e with
  | enqueue r =>
      simp only [stepEv, Option.some.injEq, Prod.mk.injEq] at h
      obtain ⟨hs, ho⟩ := h
      exact Or.inl ⟨ho.symm, [r], by rw [← hs]⟩
  | finish d =>
      cases hf : finishProcessing s d with
      | ok s0 =>
          simp only [stepEv, hf, Option.some.injEq, Prod.mk.injEq] at h
          obtain ⟨hs, ho⟩ := h
          refine Or.inl ⟨ho.symm, [], ?_⟩
          rw [← hs, List.append_nil]
          exact finish_ok_waiting s d s0 hf
      | fatal => simp [stepEv, hf] at h
  | fail d =>
      cases hf : finishProcessing s d with
      | ok s0 =>
          simp only [stepEv, failedProcessing, hf, Option.some.injEq,
            Prod.mk.injEq] at h
          obtain ⟨hs, ho⟩ := h
          refine Or.inl ⟨ho.symm, [d.fipa], ?_⟩
          rw [← hs]
          show s0.waiting ++ [d.fipa] = s.waiting ++ [d.fipa]
          rw [finish_ok_waiting s d s0 hf]
      | fatal => simp [stepEv, failedProcessing, hf] at h
  | tick =>
      cases hp : s.processing with
      | none =>
          cases hw : s.waiting with
          | nil =>
              have key : stepEv s .tick = some (s, ([] : List Nat)) := by
                simp [stepEv, act, dispatch, hp, hw]
              rw [key] at h
              simp only [Option.some.injEq, Prod.mk.injEq] at h
              obtain ⟨hs, ho⟩ := h
              exact Or.inl ⟨ho.symm, [], by rw [← hs]; simp [hw]⟩
          | cons y t =>
              have key : stepEv s .tick = some ({ s with
                  waiting := t
                  processing_time := 0
                  processing := some ⟨s.next_label, y⟩
                  next_label := s.next_label + 1 }, [y]) := by
                simp [stepEv, act, dispatch, startProcessing, hp, hw]
              rw [key] at h
              simp only [Option.some.injEq, Prod.mk.injEq] at h
              obtain ⟨hs, ho⟩ := h
              refine Or.inr ⟨y, t, [], ho.symm, ?_, ?_⟩
              · simp
              · rw [← hs]
      | some d =>
          by_cases htl : s.processing_time ≤ s.max_processing
          · have key : stepEv s .tick = some ({ s with
                processing_time := s.processing_time + s.tick_interval },
                ([] : List Nat)) := by
              simp [stepEv, act, hp, htl]
            rw [key] at h
            simp only [Option.some.injEq, Prod.mk.injEq] at h
            obtain ⟨hs, ho⟩ := h
            exact Or.inl ⟨ho.symm, [], by rw [← hs]; simp⟩
          · cases hw : s.waiting with
            | nil =>
                have key : stepEv s .tick = some ({ s with
                    waiting := []
                    timedout := insert d.label s.timedout
                    processing_time := 0
                    processing := some ⟨s.next_label, d.fipa⟩
                    next_label := s.next_label + 1 }, [d.fipa]) := by
                  simp [stepEv, act, timeoutProcessing, dispatch,
                    startProcessing, hp, hw, htl]
                rw [key] at h
                simp only [Option.some.injEq, Prod.mk.injEq] at h
                obtain ⟨hs, ho⟩ := h
                refine Or.inr ⟨d.fipa, [], [d.fipa], ho.symm, ?_, ?_⟩
                · simp
                · rw [← hs]
            | cons y t =>
                have key := act_timeout_dispatch s d y t hp htl hw
                have key2 : stepEv s .tick = some ({ s with
                    waiting := t ++ [d.fipa]
                    timedout := insert d.label s.timedout
                    processing_time := 0
                    processing := some ⟨s.next_label, y⟩
                    next_label := s.next_label + 1 }, [y]) := by
                  simp [stepEv, key]
                rw [key2] at h
                simp only [Option.some.injEq, Prod.mk.injEq] at h
                obtain ⟨hs, ho⟩ := h
                refine Or.inr ⟨y, t ++ [d.fipa], [d.fipa], ho.symm, ?_, ?_⟩
                · simp
                · rw [← hs]

/-- Core FIFO invariant: if every not-yet-dispatched element of `xs` sits
strictly before the tracked occurrence of `r` in `waiting`, then along any
event sequence, by the time `r` is dispatched every element of `xs` has
been dispatched. -/
lemma run_fifo_aux (r : Nat) (xs : List Nat) :
    ∀ (evs : List Ev) (s : TxState) (done : Nat → Prop) (a b : List Nat),
      s.waiting = a ++ r :: b → r ∉ a → (∀ x ∈ xs, done x ∨ x ∈ a) →
      ∀ u v : List Nat, (run s evs).2 = u ++ r :: v → r ∉ u →
      ∀ x ∈ xs, done x ∨ x ∈ u := by
  intro evs
  induction evs with
  | nil =>
      intro s done a b hw hra hinv u v hout hru x hx
      simp [run] at hout
  | cons e es ih =>
      intro s done a b hw hra hinv u v hout hru x hx
      cases hst : stepEv s e with
      | none =>
          rw [run, hst] at hout
          exact absurd hout.symm (by cases u <;> simp)
      | some p =>
          obtain ⟨s1, o⟩ := p
          have hout' : o ++ (run s1 es).2 = u ++ r :: v := by
            rw [run, hst] at hout
            exact hout
          rcases step_waiting_cases s e s1 o hst with
            ⟨ho, t, hwt⟩ | ⟨y, rest, t, ho, hcons, hw1⟩
          · subst ho
            rw [List.nil_append] at hout'
            refine ih s1 done a (b ++ t) ?_ hra hinv u v hout' hru x hx
            rw [hwt, hw, List.append_assoc]
            rfl
          · subst ho
            rw [hw] at hcons
            cases a with
            | nil =>
                have hc2 : r :: (b ++ t) = y :: rest := by simpa using hcons
                have h1 : r = y := by injection hc2
                subst h1
                have hu : u = [] := by
                  cases u with
                  | nil => rfl
                  | cons u0 u' =>
                      rw [List.singleton_append, List.cons_append] at hout'
                      have h1 : r = u0 := by injection hout'
                      exact absurd (by rw [h1]; exact List.mem_cons_self u0 u') hru
                subst hu
                simpa using hinv x hx
            | cons a0 a' =>
                have hc2 : a0 :: (a' ++ r :: (b ++ t)) = y :: rest := by
                  simpa using hcons
                injection hc2 with h1 h2
                subst h1
                have ha0r : a0 ≠ r := by
                  intro hc
                  exact hra (hc ▸ List.mem_cons_self a0 a')
                cases u with
                | nil =>
                    have : a0 = r := by
                      have := hout'
                      rw [List.nil_append] at this
                      injection this
                    exact absurd this ha0r
                | cons u0 u' =>
                    have hinj : a0 = u0 ∧ (run s1 es).2 = u' ++ r :: v := by
                      have := hout'
                      rw [List.cons_append] at this
                      exact ⟨by injection this, by injection this⟩
                    have hres := ih s1 (fun z => done z ∨ z = a0) a' (b ++ t)
                      (by rw [hw1, ← h2]) (fun hc => hra (List.mem_cons_of_mem a0 hc))
                      (fun z hz => by
                        rcases hinv z hz with hd | hm
                        · exact Or.inl (Or.inl hd)
                        · rcases List.mem_cons.mp hm with h | h
                          · exact Or.inl (Or.inr h)
                          · exact Or.inr h)
                      u' v hinj.2 (fun hc => hru (List.mem_cons_of_mem u0 hc)) x hx
                    rcases hres with (hd | he) | hu'
                    · exact Or.inl hd
                    · exact Or.inr (by rw [he, hinj.1]; exact List.mem_cons_self u0 u')
                    · exact Or.inr (List.mem_cons_of_mem u0 hu')

/-! ### Claim theorems -/

/-- C5: Idempotent late success — when a completion's token is in the
timed-out set and differs from the current slot's token,
`finish_processing` erases the token from the set and leaves `processing`,
`processing_time` and `waiting` unchanged, whatever the slot holds. -/
theorem idempotent_late_success (s : TxState) (d : LedgerDialogue)
    (hin : d.label ∈ s.timedout)
    (hne : ∀ d' : LedgerDialogue, s.processing = some d' → d'.label ≠ d.label) :
    ∃ s' : TxState, finishProcessing s d = .ok s' ∧
      s'.processing = s.processing ∧ s'.processing_time = s.processing_time ∧
      s'.waiting = s.waiting ∧ s'.timedout = s.timedout.erase d.label :=
  ⟨_, finish_timedout_eq s d hin (processing_ne_of_label_ne s d hne),
    rfl, rfl, rfl, rfl⟩

/-- Witness for C5 at the concrete state `lateW` and dialogue ⟨3, 5⟩. -/
theorem idempotent_late_success_witness :
    ∃ s' : TxState, finishProcessing lateW ⟨3, 5⟩ = .ok s' ∧
      s'.processing = lateW.processing ∧ s'.processing_time = lateW.processing_time ∧
      s'.waiting = lateW.waiting ∧ s'.timedout = lateW.timedout.erase 3 :=
  idempotent_late_success lateW ⟨3, 5⟩ (by simp [lateW])
    (by intro d' h; simp [lateW] at h; simp [← h])

/-- C6: Unmatched completion is fatal — a completion whose token is
neither the current slot's token nor in the timed-out set makes
`finish_processing` raise its `ValueError`. -/
theorem unmatched_completion_fatal (s : TxState) (d : LedgerDialogue)
    (hnot : d.label ∉ s.timedout)
    (hne : ∀ d' : LedgerDialogue, s.processing = some d' → d'.label ≠ d.label) :
    finishProcessing s d = .fatal :=
  finish_unmatched_eq s d hnot (processing_ne_of_label_ne s d hne)

/-- Witness for C6: a token (42) never issued by the loop is fatal at the
concrete state `lateW`. -/
theorem unmatched_completion_fatal_witness :
    finishProcessing lateW ⟨42, 5⟩ = .fatal :=
  unmatched_completion_fatal lateW ⟨42, 5⟩ (by simp [lateW])
    (by intro d' h; simp [lateW] at h; simp [← h])

/-- C2 counterexample: a second completion for token 3 — already removed
from the timed-out set by the first completion, and matching no current
slot — does not return normally: `finish_processing` raises the fatal
`ValueError` instead of logging and changing no state. -/
theorem duplicate_late_resolution_counterexample :
    finishProcessing dupS1 ⟨3, 7⟩ = .ok dupS2 ∧
      finishProcessing dupS2 ⟨3, 7⟩ = .fatal := by
  constructor
  · show finishProcessing dupS1 ⟨3, 7⟩ = .ok dupS2
    unfold finishProcessing
    rw [if_neg (by simp [dupS1]), if_neg (by simp [dupS1])]
    simp [dupS1, dupS2, Finset.erase_singleton]
  · unfold finishProcessing
    rw [if_neg (by simp [dupS2, dupS1]), if_pos (by simp [dupS2, dupS1])]

/-- C2 amended: the first completion for a timed-out token resolves
against the timed-out set; a duplicate later completion for the same
token (still matching no current slot) is treated as an unmatched
completion and raises the fatal `ValueError` — it is not logged benignly. -/
theorem duplicate_late_resolution_second_fatal (s : TxState) (d : LedgerDialogue)
    (hin : d.label ∈ s.timedout)
    (hne : ∀ d' : LedgerDialogue, s.processing = some d' → d'.label ≠ d.label)
    (s' : TxState) (hfirst : finishProcessing s d = .ok s') :
    finishProcessing s' d = .fatal := by
  have hp : s.processing ≠ some d := processing_ne_of_label_ne s d hne
  rw [finish_timedout_eq s d hin hp] at hfirst
  cases hfirst
  exact finish_unmatched_eq _ d (Finset.not_mem_erase _ _) hp

/-- Witness for the amended C2 at the concrete states `dupS1`, `dupS2`. -/
theorem duplicate_late_resolution_second_fatal_witness :
    finishProcessing dupS2 ⟨3, 7⟩ = .fatal :=
  duplicate_late_resolution_second_fatal dupS1 ⟨3, 7⟩ (by simp [dupS1])
    (by intro d' h; simp [dupS1] at h) dupS2
    (by unfold finishProcessing
        rw [if_neg (by simp [dupS1]), if_neg (by simp [dupS1])]
        simp [dupS1, dupS2, Finset.erase_singleton])

/-- C8: Backpressure gate — with searching enabled, a tick of
`GenericSearchBehaviour.act` issues zero queries and logs the skip when
the transaction behaviour's waiting list is non-empty, and issues exactly
one query when it is empty; in both cases the observed transaction state
is returned unchanged. -/
theorem backpressure_gate (tx : TxState) :
    (tx.waiting ≠ [] → searchAct true tx = (tx, 0, true)) ∧
    (tx.waiting = [] → searchAct true tx = (tx, 1, false)) := by
  constructor
  · intro h
    unfold searchAct
    rw [if_neg (by simp), if_pos (by simpa [List.length_pos] using h)]
  · intro h
    unfold searchAct
    rw [if_neg (by simp), if_neg (by simp [h])]

/-- Witness for C8: the gate skips at the backlogged state `lateW` and
issues one query at the empty-queue state `dupS1`. -/
theorem backpressure_gate_witness :
    searchAct true lateW = (lateW, 0, true) ∧
      searchAct true dupS1 = (dupS1, 1, false) :=
  ⟨(backpressure_gate lateW).1 (by simp [lateW]),
    (backpressure_gate dupS1).2 (by simp [dupS1])⟩

/-- C9: Compute-job in-flight guard — `OceanC2DBehaviour.act` emits
nothing (and changes nothing) while `is_in_flight` is set, never emits
more than one envelope per invocation, and an emission can only happen
from a state with `is_in_flight` clear and always sets `is_in_flight`. -/
theorem c2d_inflight_guard (st : C2DStrategy) :
    (st.is_in_flight = true → c2dAct st = (st, 0)) ∧
    (c2dAct st).2 ≤ 1 ∧
    (0 < (c2dAct st).2 →
      st.is_in_flight = false ∧ (c2dAct st).1.is_in_flight = true) := by
  unfold c2dAct
  cases hif : st.is_in_flight <;>
    cases hact : st.is_c2d_active <;>
      cases hcomp : st.has_completed_c2d_job <;>
        cases hpd : st.purchased_data <;>
          simp [hif, hact, hcomp, hpd]

/-- Witness for C9 at a concrete in-flight strategy state. -/
theorem c2d_inflight_guard_witness :
    c2dAct ⟨true, true, some 1, false, true⟩ = (⟨true, true, some 1, false, true⟩, 0) :=
  (c2d_inflight_guard ⟨true, true, some 1, false, true⟩).1 rfl

/-- C3 counterexample: with tick interval 2.0 and max-processing 4.0,
after enqueuing R1 the fourth tick does NOT fire the timeout — the slot
still holds R1's dialogue, R1 has not been re-enqueued, the timed-out set
is still empty, and the elapsed counter has been incremented to 6.0
(the check `processing_time <= max_processing` runs before the
increment, so 4.0 ≤ 4.0 still waits). -/
theorem concrete_scenario_counterexample :
    (ticks scenarioStart 4).processing = some ⟨0, 1⟩ ∧
    (ticks scenarioStart 4).waiting = [] ∧
    (ticks scenarioStart 4).timedout = ∅ ∧
    (ticks scenarioStart 4).processing_time = 6 := by
  norm_num [ticks, act, dispatch, startProcessing, timeoutProcessing, scenarioStart]

/-- C3 amended: tick 1 dispatches R1 with elapsed 0; ticks 2, 3 and 4
wait with elapsed 2.0, 4.0 and 6.0 (4.0 ≤ 4.0 still waits); tick 5 fires
the timeout — token 0 is moved to the timed-out set — and immediately
redispatches R1 as a new slot with a fresh label within the same tick,
leaving the queue empty. -/
theorem concrete_scenario_amended :
    ((ticks scenarioStart 1).processing = some ⟨0, 1⟩ ∧
      (ticks scenarioStart 1).processing_time = 0) ∧
    ((ticks scenarioStart 2).processing = some ⟨0, 1⟩ ∧
      (ticks scenarioStart 2).processing_time = 2) ∧
    ((ticks scenarioStart 3).processing = some ⟨0, 1⟩ ∧
      (ticks scenarioStart 3).processing_time = 4) ∧
    ((ticks scenarioStart 4).processing = some ⟨0, 1⟩ ∧
      (ticks scenarioStart 4).processing_time = 6) ∧
    (act (ticks scenarioStart 4)).2 = [⟨1, 1⟩] ∧
    ((ticks scenarioStart 5).processing = some ⟨1, 1⟩ ∧
      (ticks scenarioStart 5).processing_time = 0 ∧
      (ticks scenarioStart 5).waiting = [] ∧
      (ticks scenarioStart 5).timedout = {0}) := by
  norm_num [ticks, act, dispatch, startProcessing, timeoutProcessing, scenarioStart]

/-- C7: Unbounded retry — `failed_processing` is `finish_processing`
followed by an unconditional append of the associated request to the tail
of `waiting`, and a request whose every dispatch fails is still in the
queue after any number `n` of consecutive dispatch/failure rounds. -/
theorem unbounded_retry :
    (∀ (s : TxState) (d : LedgerDialogue) (s' : TxState),
        finishProcessing s d = .ok s' →
        failedProcessing s d = .ok { s' with waiting := s'.waiting ++ [d.fipa] }) ∧
    ∀ (n : Nat) (s : TxState) (r : Nat),
      s.processing = none → s.waiting = [r] → r ∈ (failCycle^[n] s).waiting := by
  constructor
  · intro s d s' h
    unfold failedProcessing
    rw [h]
  · intro n
    induction n with
    | zero =>
        intro s r _ hw
        simp [hw]
    | succ k ih =>
        intro s r hp hw
        rw [Function.iterate_succ_apply]
        refine ih _ r ?_ ?_
        · rw [failCycle_eq s r hp hw]
        · rw [failCycle_eq s r hp hw]

/-- Witness for C7: after 5 consecutive dispatch/failure rounds starting
from the idle one-request state `idleW`, request 5 is still queued. -/
theorem unbounded_retry_witness :
    5 ∈ (failCycle^[5] idleW).waiting :=
  unbounded_retry.2 5 idleW 5 rfl rfl

/-- C10: a tick that times out the in-flight dialogue re-enqueues its
request at the tail (and immediately dispatches the queue head); when a
failure completion for the timed-out dialogue then arrives,
`failed_processing` resolves it against the timed-out set and appends the
same request again, so the request occupies two positions in `waiting` —
and, when nothing else is queued, the subsequent ticks dispatch it
twice. -/
theorem timeout_then_failure_double_enqueue
    (s : TxState) (d : LedgerDialogue) (y : Nat) (rest : List Nat)
    (hp : s.processing = some d)
    (ht : s.max_processing < s.processing_time)
    (hw : s.waiting = y :: rest)
    (hfr : d.fipa ∉ s.waiting)
    (hlbl : d.label ≠ s.next_label) :
    ∃ s2 : TxState, failedProcessing (act s).1 d = .ok s2 ∧
      s2.waiting = rest ++ [d.fipa, d.fipa] ∧
      s2.waiting.count d.fipa = 2 ∧
      (rest = [] →
        (run s2 [.finish ⟨s.next_label, y⟩, .tick,
                 .finish ⟨s.next_label + 1, d.fipa⟩, .tick]).2 = [d.fipa, d.fipa]) := by
  have hfrest : d.fipa ∉ rest := by
    rw [hw] at hfr
    exact fun hmem => hfr (List.mem_cons_of_mem y hmem)
  have hne : ¬ ((some ⟨s.next_label, y⟩ : Option LedgerDialogue) = some d) := by
    intro h
    apply hlbl
    cases h
    rfl
  rw [act_timeout_dispatch s d y rest hp (not_le.mpr ht) hw]
  refine ⟨{ s with
      waiting := rest ++ [d.fipa, d.fipa]
      timedout := (insert d.label s.timedout).erase d.label
      processing_time := 0
      processing := some ⟨s.next_label, y⟩
      next_label := s.next_label + 1 }, ?_, rfl, ?_, ?_⟩
  · show failedProcessing _ d = _
    unfold failedProcessing finishProcessing
    rw [if_neg hne, if_neg (by simp)]
    simp
  · simp [List.count_append, List.count_eq_zero, hfrest]
  · intro hrest
    subst hrest
    simp [run, stepEv, act, dispatch, startProcessing, finishProcessing]

/-- Witness for C10 at the concrete state `dblW`: request 1 ends up
queued twice and is dispatched twice by the following ticks. -/
theorem timeout_then_failure_double_enqueue_witness :
    ∃ s2 : TxState, failedProcessing (act dblW).1 ⟨0, 1⟩ = .ok s2 ∧
      s2.waiting = [] ++ [1, 1] ∧
      s2.waiting.count 1 = 2 ∧
      (([] : List Nat) = [] →
        (run s2 [.finish ⟨1, 2⟩, .tick, .finish ⟨2, 1⟩, .tick]).2 = [1, 1]) :=
  timeout_then_failure_double_enqueue dblW ⟨0, 1⟩ 2 [] rfl
    (by norm_num [dblW]) rfl (by decide) (by decide)

/-- C1: Single in-flight invariant — for every state and every event
(tick, enqueue, or completion), a step dispatches at most one ledger-API
request; when it does, the request is issued by `_start_processing` from
an intermediate state whose slot is empty (either the pre-step state, or
the pre-step state just cleared by `_timeout_processing`), and the step
leaves the slot holding exactly that request.  Hence, over any sequence
of ticks and completions, a new ledger-API request is only ever issued
when the single slot is empty. -/
theorem single_inflight (s : TxState) (e : Ev) (s' : TxState) (o : List Nat)
    (h : stepEv s e = some (s', o)) :
    o.length ≤ 1 ∧
    ∀ y ∈ o, ∃ s1 : TxState,
      (s1 = s ∨ s1 = timeoutProcessing s) ∧
      s1.processing = none ∧
      act s = startProcessing s1 ∧
      s'.processing = some ⟨s1.next_label, y⟩ := by
  cases e with
  | tick =>
      have h' : (act s).1 = s' ∧ (act s).2.map LedgerDialogue.fipa = o := by
        simpa [stepEv] using h
      obtain ⟨hs', ho⟩ := h'
      rcases act_emits s with hnil | ⟨s1, y, hor, hpn, hact, ho2, hpr⟩
      · rw [← ho, hnil]
        simp
      · rw [← ho, ho2]
        constructor
        · simp
        · intro z hz
          simp at hz
          subst hz
          exact ⟨s1, hor, hpn, hact, by rw [← hs']; exact hpr⟩
  | enqueue r =>
      simp only [stepEv, Option.some.injEq, Prod.mk.injEq] at h
      obtain ⟨_, ho⟩ := h
      rw [← ho]
      simp
  | finish d =>
      cases hf : finishProcessing s d with
      | ok s0 =>
          simp only [stepEv, hf, Option.some.injEq, Prod.mk.injEq] at h
          obtain ⟨_, ho⟩ := h
          rw [← ho]
          simp
      | fatal => simp [stepEv, hf] at h
  | fail d =>
      cases hf : failedProcessing s d with
      | ok s0 =>
          simp only [stepEv, hf, Option.some.injEq, Prod.mk.injEq] at h
          obtain ⟨_, ho⟩ := h
          rw [← ho]
          simp
      | fatal => simp [stepEv, hf] at h

/-- Witness for C1: a tick at the idle one-request state `idleW`
dispatches request 5 from the empty slot. -/
theorem single_inflight_witness :
    ([5] : List Nat).length ≤ 1 ∧
    ∀ y ∈ ([5] : List Nat), ∃ s1 : TxState,
      (s1 = idleW ∨ s1 = timeoutProcessing idleW) ∧
      s1.processing = none ∧
      act idleW = startProcessing s1 ∧
      ({ idleW with
          waiting := ([] : List Nat)
          processing_time := 0
          processing := some ⟨0, 5⟩
          next_label := 1 } : TxState).processing = some ⟨s1.next_label, y⟩ :=
  single_inflight idleW .tick
    { idleW with
        waiting := ([] : List Nat)
        processing_time := 0
        processing := some ⟨0, 5⟩
        next_label := 1 } [5]
    (by norm_num [stepEv, act, dispatch, startProcessing, idleW])

/-- C4: FIFO with timeout-demotion — at a tick that times out the
in-flight request R1 (`d.fipa`), the next dispatched request is the head
R2 of the waiting queue (dispatched in that very tick), and along any
subsequent event sequence R1 is redispatched only after every other
request that was waiting when the timeout fired (R3 and everything
enqueued before then) has been dispatched. -/
theorem fifo_timeout_demotion (s : TxState) (d : LedgerDialogue) (r2 : Nat)
    (rest : List Nat)
    (hp : s.processing = some d)
    (ht : s.max_processing < s.processing_time)
    (hw : s.waiting = r2 :: rest)
    (hfr : d.fipa ∉ s.waiting) :
    (act s).2 = [⟨s.next_label, r2⟩] ∧
    ∀ (evs : List Ev) (u v : List Nat),
      (run (act s).1 evs).2 = u ++ d.fipa :: v → d.fipa ∉ u →
      ∀ x ∈ rest, x ∈ u := by
  have key := act_timeout_dispatch s d r2 rest hp (not_le.mpr ht) hw
  constructor
  · rw [key]
  · intro evs u v hout hru x hx
    have hfr' : d.fipa ∉ rest := by
      rw [hw] at hfr
      exact fun hm => hfr (List.mem_cons_of_mem r2 hm)
    have h1 := run_fifo_aux d.fipa rest evs (act s).1 (fun _ => False) rest []
      (by rw [key]) hfr' (fun z hz => Or.inr hz) u v hout hru x hx
    exact h1.resolve_left (fun f => f)

/-- Witness for C4 at the concrete state `fifoW`: R2 (request 2) is
dispatched at the timeout tick, and along the concrete continuation that
completes R2 and R3, R3 is dispatched before R1's redispatch. -/
theorem fifo_timeout_demotion_witness :
    (act fifoW).2 = [⟨1, 2⟩] ∧ 3 ∈ ([3] : List Nat) :=
  have h := fifo_timeout_demotion fifoW ⟨0, 1⟩ 2 [3] rfl (by norm_num [fifoW]) rfl
    (by decide)
  ⟨h.1, h.2 [.finish ⟨1, 2⟩, .tick, .finish ⟨2, 3⟩, .tick] [3] []
    (by norm_num [run, stepEv, act, dispatch, startProcessing, finishProcessing,
      timeoutProcessing, fifoW])
    (by decide) 3 (by decide)⟩

end OceanBuyer
